import Mathlib

/-!
Verification of the layout-aware line-ordering algorithm and the
asynchronous OCR job orchestrator of `baidu-ocr-web`.

The embedding translates the two source files:
* `src/ocr_pdf_to_csv.py` — the geometry types, the layout classifier
  (`choose_layout`), the line sorter (`sort_words`) and the row builder
  (`build_rows`);
* `src/web_app.py` — the job state (`create_task` / `update_task`), the
  initial runner (`run_ocr_task`) and the retry runner (`run_retry_task`).

Modelling conventions:
* Python floats are embedded as exact rationals `ℚ`; all constants in the
  source (1.15, 0.6, 1.8, 0.8, 1.2) are decimal literals that the code only
  uses in comparisons and multiplications, so the rational semantics is the
  intended real-number semantics of the heuristics.
* Python `sorted` / `list.sort` are stable sorts by a key; they are embedded
  as `List.insertionSort` with the non-strict lexicographic key order, which
  is stable and hence extensionally equal to any stable sort.
* The CSV result file is embedded as `Option (List Row)` (`none` = the file
  does not exist); `read_rows_from_csv` returns `[]` for a missing file and
  `write_rows_to_csv` is a full overwrite, exactly as in the source.
* Network and rendering collaborators are parameters: per-page recognition
  is a function returning `some words_result` on success and `none` when the
  call raises, page rendering a boolean, authentication a boolean.
* Cooperative cancellation: the flag is monotone (set once, never cleared in
  a run), so the observations of `is_cancel_requested` are modelled by the
  index of the first check that sees the flag (`cancelFrom`).
-/

/-- A recognized text fragment: one entry of Baidu's `words_result` list.
`location` fields are embedded directly; `probability.average` as an
optional rational (`none` when absent). -/
structure Frag where
  left : ℚ
  top : ℚ
  width : ℚ
  height : ℚ
  words : String
  probability : Option ℚ
deriving DecidableEq, Repr

/-- One output CSV row, as produced by `build_rows`. -/
structure Row where
  image_file : String
  page_no : ℤ
  line_no : ℤ
  layout : String
  left : ℤ
  top : ℤ
  width : ℤ
  height : ℤ
  confidence : String
  text : String
deriving DecidableEq, Repr

/-- Python `int()` on a float truncates toward zero. -/
def pyInt (q : ℚ) : ℤ := if q < 0 then ⌈q⌉ else ⌊q⌋

/-- Python `str.strip()`: remove leading and trailing whitespace.
(`Char.isWhitespace` covers the ASCII whitespace Python strips; exotic
Unicode whitespace does not occur in the claims.) -/
def pyStrip (s : String) : String :=
  String.mk (((s.data.dropWhile Char.isWhitespace).reverse.dropWhile Char.isWhitespace).reverse)

/-- `statistics.median`: middle element of the sorted data for odd length,
mean of the two middle elements for even length.  `statistics.median` only
sorts the data, so any correct sort gives the same value; we use
`insertionSort`.  The source never calls it on an empty list; `0` is a junk
value for that case. -/
def median (l : List ℚ) : ℚ :=
  let s := l.insertionSort (· ≤ ·)
  let n := s.length
  if n = 0 then 0
  else if n % 2 = 1 then s.getD (n / 2) 0
  else (s.getD (n / 2 - 1) 0 + s.getD (n / 2) 0) / 2

/-- The loop state of `choose_layout`: the running count of vertical-like
fragments, the widths list accumulated so far, and the set of band ids. -/
structure CLState where
  vertical_like : ℕ
  widths : List ℚ
  band_ids : Finset ℤ

/-- One iteration of the `for item in words_result` loop of `choose_layout`
(src/ocr_pdf_to_csv.py lines 183-196).  Note that `band_size` is computed
inside the loop from the widths accumulated *so far* (including the current
fragment when positive), defaulting to `40.0` while no positive width has
been seen. -/
def clStep (st : CLState) (f : Frag) : CLState :=
  let widths := if 0 < f.width then st.widths ++ [f.width] else st.widths
  let vertical_like :=
    if 0 < f.width ∧ f.width * 1.15 < f.height then st.vertical_like + 1 else st.vertical_like
  let band_size : ℚ := if widths.isEmpty then 40 else max 20 (median widths * 1.8)
  { vertical_like := vertical_like
    widths := widths
    band_ids := insert (⌊f.left / band_size⌋) st.band_ids }

/-- `choose_layout` (src/ocr_pdf_to_csv.py lines 173-201). -/
def choose_layout (words_result : List Frag) (layout : String) : String :=
  if layout ≠ "auto" then layout
  else if words_result.length < 2 then "horizontal"
  else
    let st := words_result.foldl clStep ⟨0, [], ∅⟩
    let vertical_ratio : ℚ := (st.vertical_like : ℚ) / (words_result.length : ℚ)
    if (0.6 : ℚ) ≤ vertical_ratio ∧ 2 ≤ st.band_ids.card then "vertical-rtl"
    else "horizontal"

/-- Non-strict lexicographic order on the three-component sort keys used by
`sort_words` (Python tuple comparison). -/
def lex3Le (a b : ℤ × ℚ × ℚ) : Prop :=
  a.1 < b.1 ∨ (a.1 = b.1 ∧ (a.2.1 < b.2.1 ∨ (a.2.1 = b.2.1 ∧ a.2.2 ≤ b.2.2)))

instance : DecidableRel lex3Le := fun a b => by unfold lex3Le; infer_instance

/-- The horizontal-mode sort key of `sort_words`:
`(int(top // row_step), left, top)`. -/
def hKey (step : ℚ) (f : Frag) : ℤ × ℚ × ℚ := (⌊f.top / step⌋, f.left, f.top)

/-- The vertical-rtl-mode sort key of `sort_words`:
`(-int(left // col_step), top, -left)`. -/
def vKey (step : ℚ) (f : Frag) : ℤ × ℚ × ℚ := (-⌊f.left / step⌋, f.top, -f.left)

def hLe (step : ℚ) (a b : Frag) : Prop := lex3Le (hKey step a) (hKey step b)

def vLe (step : ℚ) (a b : Frag) : Prop := lex3Le (vKey step a) (vKey step b)

instance (step : ℚ) : DecidableRel (hLe step) := fun a b => by unfold hLe; infer_instance

instance (step : ℚ) : DecidableRel (vLe step) := fun a b => by unfold vLe; infer_instance

/-- The `valid_items` filter of `sort_words`: fragments whose text is
non-empty after stripping whitespace (Python `(item.get("words") or
"").strip()` truthiness). -/
def validItems (words_result : List Frag) : List Frag :=
  words_result.filter fun f => decide (pyStrip f.words ≠ "")

/-- `sort_words` (src/ocr_pdf_to_csv.py lines 204-243).  Python `sorted`
with a key is the stable sort by the non-strict key order; `insertionSort`
is that stable sort. -/
def sort_words (words_result : List Frag) (layout : String) : List Frag :=
  let valid_items := validItems words_result
  if valid_items.isEmpty then []
  else if layout = "vertical-rtl" then
    let widths := valid_items.map fun f => f.width
    let pos := widths.filter fun w => decide (0 < w)
    let median_width := median (if pos.isEmpty then [20] else pos)
    let col_step := max 12 (median_width * 1.2)
    valid_items.insertionSort (vLe col_step)
  else
    let heights := valid_items.map fun f => f.height
    let pos := heights.filter fun h => decide (0 < h)
    let median_height := median (if pos.isEmpty then [20] else pos)
    let row_step := max 8 (median_height * 0.8)
    valid_items.insertionSort (hLe row_step)

/-- Zero-padded decimal digits, big-endian (used for the fractional part of
`line_confidence` and the `{:04d}` page number in image names). -/
def padNat (w n : ℕ) : String :=
  let s := toString n
  String.mk (List.replicate (w - s.length) '0') ++ s

/-- `line_confidence` (src/ocr_pdf_to_csv.py lines 246-252): format the
average probability with four decimals, empty string when absent.  Python's
float formatting is embedded as exact rounding of the rational. -/
def line_confidence (f : Frag) : String :=
  match f.probability with
  | none => ""
  | some a =>
    let n : ℤ := ⌊a * 10000 + 1 / 2⌋
    let sign := if n < 0 then "-" else ""
    sign ++ toString (n.natAbs / 10000) ++ "." ++ padNat 4 (n.natAbs % 10000)

/-- `build_rows` (src/ocr_pdf_to_csv.py lines 255-280): number the sorted
fragments from 1 and project each to a CSV row. -/
def build_rows (image_file : String) (page_no : ℤ) (words_result : List Frag)
    (layout : String) : List Row :=
  (sort_words words_result layout).enum.map fun p =>
    { image_file := image_file
      page_no := page_no
      line_no := (p.1 : ℤ) + 1
      layout := layout
      left := pyInt p.2.left
      top := pyInt p.2.top
      width := pyInt p.2.width
      height := pyInt p.2.height
      confidence := line_confidence p.2
      text := pyStrip p.2.words }

/-! ### The job orchestrator of `src/web_app.py` -/

/-- The mutable per-job record created by `create_task` (src/web_app.py
lines 55-77).  Timestamps are not embedded (wall-clock time); `output_name`
and `task_id` are fixed by the surrounding request handling and do not
affect the runners. -/
structure TaskState where
  status : String
  phase : String
  progress : ℕ
  message : String
  pages_total : ℕ
  convert_done : ℕ
  pages_done : ℕ
  retry_total : ℕ
  retry_done : ℕ
  rows_total : ℕ
  result_csv : String
  failed_pages : List ℤ
  image_paths : List String
  cancel_requested : Bool
deriving DecidableEq, Repr

/-- The fresh record installed by `create_task`. -/
def initialTask : TaskState :=
  { status := "queued"
    phase := "queued"
    progress := 0
    message := "任务已创建"
    pages_total := 0
    convert_done := 0
    pages_done := 0
    retry_total := 0
    retry_done := 0
    rows_total := 0
    result_csv := ""
    failed_pages := []
    image_paths := []
    cancel_requested := false }

/-- The job record together with the result CSV on disk (`none` = the file
has never been written). -/
structure World where
  task : TaskState
  file : Option (List Row)
deriving DecidableEq, Repr

/-- `read_rows_from_csv` (src/web_app.py lines 101-106) returns `[]` when
the file does not exist. -/
def readRows (file : Option (List Row)) : List Row := file.getD []

/-- The cooperative cancel flag, observed at check points numbered from 1:
`cancelFrom = some c` means every `is_cancel_requested` call from the c-th
one on sees the flag (the flag is set once and never cleared in a run). -/
def cancelAt (cancelFrom : Option ℕ) (i : ℕ) : Bool :=
  match cancelFrom with
  | none => false
  | some c => decide (c ≤ i)

/-- Image file name produced by the conversion loop:
`f"{pdf_path.stem}_page_{idx:04d}.png"`. -/
def imageName (stem : String) (idx : ℕ) : String :=
  stem ++ "_page_" ++ padNat 4 idx ++ ".png"

/-- `recognize_single_page` (src/web_app.py lines 116-131): recognize one
image (the network call is the collaborator delivering `words_result`),
choose the page layout and build its rows. -/
def recognize_single_page (image_file : String) (page_no : ℤ)
    (words_result : List Frag) (layout : String) : List Row :=
  build_rows image_file page_no words_result (choose_layout words_result layout)

/-- External collaborators and request parameters of one initial run of
`run_ocr_task`.  `renderOk i` tells whether rendering page `i` succeeds,
`recognize i` is the recognizer outcome for page `i` (`none` = the call
raised), `cancelFrom` the cancellation observation point. -/
structure OcrEnv where
  authOk : Bool
  pageCount : ℕ
  renderOk : ℕ → Bool
  recognize : ℕ → Option (List Frag)
  layout : String
  pdfStem : String
  taskId : String
  cancelFrom : Option ℕ

/-- How the conversion loop ended. -/
inductive RunExit where
  | finished
  | canceledExit
  | errored
deriving DecidableEq, Repr

def convMsg (i n : ℕ) : String :=
  "正在将 PDF 转换为图片 " ++ toString i ++ "/" ++ toString n

def recMsg (i n : ℕ) : String :=
  "正在识别第 " ++ toString i ++ "/" ++ toString n ++ " 页"

def retryMsg (i n : ℕ) : String :=
  "正在重试失败页 " ++ toString i ++ "/" ++ toString n

/-- Conversion progress for page `idx` of `n`:
`min(45, 5 + int((idx / total_pages) * 40))`. -/
def pConv (n idx : ℕ) : ℕ := min 45 (5 + 40 * idx / n)

/-- Recognition progress for page `idx` of `n`:
`min(98, 45 + int((idx / total_pages) * 53))`. -/
def pRec (n idx : ℕ) : ℕ := min 98 (45 + 53 * idx / n)

/-- Retry progress for retried page number `idx` of `n`:
`min(98, 10 + int((idx / total_retry) * 88))`. -/
def pRetry (n idx : ℕ) : ℕ := min 98 (10 + 88 * idx / n)

/-- The page loop of `convert_pdf_to_images_with_progress` (src/web_app.py
lines 160-177).  Arguments: remaining page indices, current task state,
image paths so far, progress values written so far.  Returns the final
task state, the paths, the progress trace and how the loop ended (a cancel
raises `TaskCancelledError`, a render error raises to the generic
handler). -/
def convLoop (env : OcrEnv) (n : ℕ) :
    List ℕ → TaskState → List String → List ℕ →
    TaskState × List String × List ℕ × RunExit
  | [], t, paths, tr => (t, paths, tr, .finished)
  | idx :: rest, t, paths, tr =>
    if cancelAt env.cancelFrom idx then (t, paths, tr, .canceledExit)
    else if env.renderOk idx then
      let p := pConv n idx
      let t1 := { t with phase := "converting", convert_done := idx, progress := p,
                         message := convMsg idx n }
      convLoop env n rest t1 (paths ++ [imageName env.pdfStem idx]) (tr ++ [p])
    else (t, paths, tr, .errored)

/-- The recognition loop of `run_ocr_task` (src/web_app.py lines 336-366).
Per page: observe the cancel flag, write the progress update, attempt
recognition (a failure is swallowed and the page number recorded), then
write the `pages_done` update with the same progress value.  The final
`Bool` is true when the loop was exited by `TaskCancelledError`. -/
def recLoop (env : OcrEnv) (n : ℕ) :
    List ℕ → TaskState → List Row → List ℤ → List ℕ →
    TaskState × List Row × List ℤ × List ℕ × Bool
  | [], t, rows, failed, tr => (t, rows, failed, tr, false)
  | idx :: rest, t, rows, failed, tr =>
    if cancelAt env.cancelFrom (n + idx) then (t, rows, failed, tr, true)
    else
      let p := pRec n idx
      let t1 := { t with phase := "recognizing", progress := p, message := recMsg idx n }
      let step :=
        match env.recognize idx with
        | some words =>
          (rows ++ recognize_single_page (imageName env.pdfStem idx) (idx : ℤ) words env.layout,
           failed)
        | none => (rows, failed ++ [(idx : ℤ)])
      let t2 := { t1 with pages_done := idx, progress := p, message := recMsg idx n }
      recLoop env n rest t2 step.1 step.2 (tr ++ [p, p])

/-- `run_ocr_task` (src/web_app.py lines 299-408), starting from the record
just installed by `create_task`.  Returns the final world (task record and
result file) and the sequence of values written to the `progress` field. -/
def run_ocr_task (env : OcrEnv) : World × List ℕ :=
  let csvName := env.taskId ++ "_ocr.csv"
  let t1 := { initialTask with status := "running", phase := "authenticating", progress := 3,
                               message := "正在连接百度 OCR 服务" }
  if ¬ env.authOk then
    ({ task := { t1 with status := "failed", phase := "failed", message := "任务失败：auth" },
       file := none }, [3])
  else if env.pageCount = 0 then
    -- `convert_pdf_to_images_with_progress` raises before its first update
    ({ task := { t1 with status := "failed", phase := "failed",
                         message := "任务失败：PDF 没有可识别页面" },
       file := none }, [3])
  else
    let n := env.pageCount
    let t2 := { t1 with phase := "converting", pages_total := n, convert_done := 0,
                        pages_done := 0, progress := 5, message := convMsg 0 n }
    let conv := convLoop env n (List.range' 1 n) t2 [] [3, 5]
    if conv.2.2.2 = RunExit.canceledExit then
      -- rows is still empty: the cancel handler writes no file
      ({ task := { conv.1 with status := "canceled", phase := "canceled",
                               message := "任务已取消" },
         file := none }, conv.2.2.1)
    else if conv.2.2.2 = RunExit.errored then
      ({ task := { conv.1 with status := "failed", phase := "failed",
                               message := "任务失败：render" },
         file := none }, conv.2.2.1)
    else
      let t4 := { conv.1 with image_paths := conv.2.1, result_csv := csvName }
      let rec5 := recLoop env n (List.range' 1 n) t4 [] [] conv.2.2.1
      let t5 := rec5.1
      let rows := rec5.2.1
      let failed := rec5.2.2.1
      let tr5 := rec5.2.2.2.1
      if rec5.2.2.2.2 then
        let t6 :=
          if rows.isEmpty then t5
          else { t5 with result_csv := csvName, rows_total := rows.length }
        ({ task := { t6 with status := "canceled", phase := "canceled",
                             message := "任务已取消" },
           file := if rows.isEmpty then none else some rows }, tr5)
      else if failed.isEmpty then
        ({ task := { t5 with status := "completed", phase := "completed", progress := 100,
                             convert_done := n, pages_done := n, rows_total := rows.length,
                             result_csv := csvName, failed_pages := [],
                             message := "识别完成" },
           file := some rows }, tr5 ++ [100])
      else
        ({ task := { t5 with status := "completed_with_errors", phase := "completed_with_errors",
                             progress := 100, convert_done := n, pages_done := n,
                             rows_total := rows.length, result_csv := csvName,
                             failed_pages := failed,
                             message := "识别完成，可重试失败页" },
           file := some rows }, tr5 ++ [100])

/-- The non-strict `(page_no, line_no)` key order used by the retry merge
(`merged_rows.sort(key=...)`, src/web_app.py line 265). -/
def rowLe (a b : Row) : Prop :=
  a.page_no < b.page_no ∨ (a.page_no = b.page_no ∧ a.line_no ≤ b.line_no)

instance : DecidableRel rowLe := fun a b => by unfold rowLe; infer_instance

/-- External collaborators and request parameters of one retry run. -/
structure RetryEnv where
  authOk : Bool
  recognize : ℤ → Option (List Frag)
  layout : String
  cancelFrom : Option ℕ

/-- The retry page loop of `run_retry_task` (src/web_app.py lines 225-262).
Arguments: the enumerated failed pages (`enumerate(failed_pages, start=1)`),
current task state, freshly recognized rows, pages that failed again, and
the progress trace.  An out-of-range page number is recorded as still
failed and `continue` skips the trailing update.  The final `Bool` is true
when the loop was exited by `TaskCancelledError`. -/
def retryLoop (env : RetryEnv) (images : List String) (total : ℕ) :
    List (ℕ × ℤ) → TaskState → List Row → List ℤ → List ℕ →
    TaskState × List Row × List ℤ × List ℕ × Bool
  | [], t, retried, remaining, tr => (t, retried, remaining, tr, false)
  | (idx, page) :: rest, t, retried, remaining, tr =>
    if cancelAt env.cancelFrom idx then (t, retried, remaining, tr, true)
    else
      let p := pRetry total idx
      let t1 := { t with phase := "retrying", retry_done := idx - 1, progress := p,
                         message := retryMsg idx total }
      if page < 1 ∨ (images.length : ℤ) < page then
        retryLoop env images total rest t1 retried (remaining ++ [page]) (tr ++ [p])
      else
        let imageFile := images.getD (page - 1).toNat ""
        let step :=
          match env.recognize page with
          | some words =>
            (retried ++ recognize_single_page imageFile page words env.layout, remaining)
          | none => (retried, remaining ++ [page])
        let t2 := { t1 with retry_done := idx, progress := p, message := retryMsg idx total }
        retryLoop env images total rest t2 step.1 step.2 (tr ++ [p, p])

/-- `run_retry_task` (src/web_app.py lines 184-296), acting on the current
world.  Note `Path(snapshot.get("result_csv") or "")` is always truthy in
Python, so the entry guard only tests the two lists.  On cancellation the
merge and the file write never happen.  Returns the final world and the
sequence of values written to `progress`. -/
def run_retry_task (env : RetryEnv) (w : World) : World × List ℕ :=
  let snapshot := w.task
  let failed := snapshot.failed_pages.filter fun p => decide (0 < p)
  let images := snapshot.image_paths
  if failed.isEmpty ∨ images.isEmpty then
    ({ w with task := { snapshot with message := "没有可重试的失败页", phase := "failed" } }, [])
  else
    let total := failed.length
    let t1 := { snapshot with status := "running", phase := "retrying",
                              cancel_requested := false, retry_total := total,
                              retry_done := 0, progress := 5,
                              message := retryMsg 0 total }
    if ¬ env.authOk then
      ({ task := { t1 with status := "failed", phase := "failed", message := "重试失败：auth" },
         file := w.file }, [5])
    else
      let existing := readRows w.file
      let kept := existing.filter fun r => decide (r.page_no ∉ failed)
      let lp := retryLoop env images total (failed.enumFrom 1) t1 [] [] [5]
      let t2 := lp.1
      let retried := lp.2.1
      let remaining := lp.2.2.1
      let tr := lp.2.2.2.1
      if lp.2.2.2.2 then
        ({ task := { t2 with status := "canceled", phase := "canceled",
                             message := "任务已取消" },
           file := w.file }, tr)
      else
        let merged := (kept ++ retried).insertionSort rowLe
        if remaining.isEmpty then
          ({ task := { t2 with status := "completed", phase := "completed", progress := 100,
                               failed_pages := [], rows_total := merged.length,
                               message := "重试完成，所有失败页已成功识别" },
             file := some merged }, tr ++ [100])
        else
          ({ task := { t2 with status := "completed_with_errors",
                               phase := "completed_with_errors", progress := 100,
                               failed_pages := remaining, rows_total := merged.length,
                               message := "重试结束，仍有失败页" },
             file := some merged }, tr ++ [100])

/-- The `can_retry` field of the `api_status` projection (src/web_app.py
line 553). -/
def api_can_retry (t : TaskState) : Bool :=
  decide ((t.status = "completed_with_errors" ∨ t.status = "failed" ∨ t.status = "canceled")
    ∧ 0 < t.failed_pages.length)

/-! ### Order-theoretic facts about the sort keys -/

theorem lex3Le_trans {a b c : ℤ × ℚ × ℚ} (h1 : lex3Le a b) (h2 : lex3Le b c) : lex3Le a c := by
  unfold lex3Le at *
  rcases h1 with h1 | ⟨e1, h1⟩
  · rcases h2 with h2 | ⟨e2, _⟩
    · exact Or.inl (h1.trans h2)
    · exact Or.inl (h1.trans_eq e2)
  · rcases h2 with h2 | ⟨e2, h2⟩
    · exact Or.inl (e1.trans_lt h2)
    · refine Or.inr ⟨e1.trans e2, ?_⟩
      rcases h1 with h1 | ⟨f1, h1⟩
      · rcases h2 with h2 | ⟨f2, _⟩
        · exact Or.inl (h1.trans h2)
        · exact Or.inl (h1.trans_eq f2)
      · rcases h2 with h2 | ⟨f2, h2⟩
        · exact Or.inl (f1.trans_lt h2)
        · exact Or.inr ⟨f1.trans f2, h1.trans h2⟩

theorem lex3Le_total (a b : ℤ × ℚ × ℚ) : lex3Le a b ∨ lex3Le b a := by
  unfold lex3Le
  rcases lt_trichotomy a.1 b.1 with h | h | h
  · exact Or.inl (Or.inl h)
  · rcases lt_trichotomy a.2.1 b.2.1 with h2 | h2 | h2
    · exact Or.inl (Or.inr ⟨h, Or.inl h2⟩)
    · rcases le_total a.2.2 b.2.2 with h3 | h3
      · exact Or.inl (Or.inr ⟨h, Or.inr ⟨h2, h3⟩⟩)
      · exact Or.inr (Or.inr ⟨h.symm, Or.inr ⟨h2.symm, h3⟩⟩)
    · exact Or.inr (Or.inr ⟨h.symm, Or.inl h2⟩)
  · exact Or.inr (Or.inl h)

theorem lex3Le_antisymm {a b : ℤ × ℚ × ℚ} (h1 : lex3Le a b) (h2 : lex3Le b a) : a = b := by
  unfold lex3Le at h1 h2
  have e1 : a.1 = b.1 := by
    rcases h1 with h1 | ⟨e1, _⟩
    · rcases h2 with h2 | ⟨e2, _⟩
      · exact absurd (h1.trans h2) (lt_irrefl _)
      · exact e2.symm
    · exact e1
  have h1' := h1.resolve_left (by rw [e1]; exact lt_irrefl _)
  have h2' := h2.resolve_left (by rw [e1]; exact lt_irrefl _)
  have e2 : a.2.1 = b.2.1 := by
    rcases h1'.2 with h1 | ⟨e2, _⟩
    · rcases h2'.2 with h2 | ⟨e3, _⟩
      · exact absurd (h1.trans h2) (lt_irrefl _)
      · exact e3.symm
    · exact e2
  have h1'' := h1'.2.resolve_left (by rw [e2]; exact lt_irrefl _)
  have h2'' := h2'.2.resolve_left (by rw [e2]; exact lt_irrefl _)
  have e3 : a.2.2 = b.2.2 := le_antisymm h1''.2 h2''.2
  exact Prod.ext e1 (Prod.ext e2 e3)

instance : IsTrans (ℤ × ℚ × ℚ) lex3Le := ⟨fun _ _ _ => lex3Le_trans⟩

instance : IsTotal (ℤ × ℚ × ℚ) lex3Le := ⟨lex3Le_total⟩

instance (step : ℚ) : IsTrans Frag (hLe step) := ⟨fun _ _ _ => lex3Le_trans⟩

instance (step : ℚ) : IsTotal Frag (hLe step) := ⟨fun a b => lex3Le_total _ _⟩

instance (step : ℚ) : IsTrans Frag (vLe step) := ⟨fun _ _ _ => lex3Le_trans⟩

instance (step : ℚ) : IsTotal Frag (vLe step) := ⟨fun a b => lex3Le_total _ _⟩

theorem rowLe_trans {a b c : Row} (h1 : rowLe a b) (h2 : rowLe b c) : rowLe a c := by
  unfold rowLe at *
  rcases h1 with h1 | ⟨e1, h1⟩
  · rcases h2 with h2 | ⟨e2, _⟩
    · exact Or.inl (h1.trans h2)
    · exact Or.inl (h1.trans_eq e2)
  · rcases h2 with h2 | ⟨e2, h2⟩
    · exact Or.inl (e1.trans_lt h2)
    · exact Or.inr ⟨e1.trans e2, h1.trans h2⟩

theorem rowLe_total (a b : Row) : rowLe a b ∨ rowLe b a := by
  unfold rowLe
  rcases lt_trichotomy a.page_no b.page_no with h | h | h
  · exact Or.inl (Or.inl h)
  · rcases le_total a.line_no b.line_no with h2 | h2
    · exact Or.inl (Or.inr ⟨h, h2⟩)
    · exact Or.inr (Or.inr ⟨h.symm, h2⟩)
  · exact Or.inr (Or.inl h)

/-- The `(page_no, line_no)` key of a row. -/
def rowKey (r : Row) : ℤ × ℤ := (r.page_no, r.line_no)

theorem rowLe_antisymm_key {a b : Row} (h1 : rowLe a b) (h2 : rowLe b a) :
    rowKey a = rowKey b := by
  unfold rowLe at h1 h2
  have e1 : a.page_no = b.page_no := by
    rcases h1 with h1 | ⟨e1, _⟩
    · rcases h2 with h2 | ⟨e2, _⟩
      · exact absurd (h1.trans h2) (lt_irrefl _)
      · exact e2.symm
    · exact e1
  have h1' := h1.resolve_left (by rw [e1]; exact lt_irrefl _)
  have h2' := h2.resolve_left (by rw [e1]; exact lt_irrefl _)
  exact Prod.ext e1 (le_antisymm h1'.2 h2'.2)

instance : IsTrans Row rowLe := ⟨fun _ _ _ => rowLe_trans⟩

instance : IsTotal Row rowLe := ⟨rowLe_total⟩

/-! ### Spec-side formulations of the layout claims -/

/-- The horizontal row bucket computed by `sort_words` (the `row_step` local
of the source): `max(8, median([h for h in heights if h > 0] or [20.0]) * 0.8)`. -/
def hStepD (frs : List Frag) : ℚ :=
  let pos := ((validItems frs).map fun f => f.height).filter fun h => decide (0 < h)
  max 8 (median (if pos.isEmpty then [20] else pos) * 0.8)

/-- The vertical column bucket computed by `sort_words` (the `col_step`
local of the source): `max(12, median([w for w in widths if w > 0] or [20.0]) * 1.2)`. -/
def vStepD (frs : List Frag) : ℚ :=
  let pos := ((validItems frs).map fun f => f.width).filter fun w => decide (0 < w)
  max 12 (median (if pos.isEmpty then [20] else pos) * 1.2)

/-- Row bucket as worded in the spec and claim C3:
`max(8, median(nonzero fragment heights) * 0.8)`, with 20 as the median when
no (remaining) fragment has positive height. -/
def specRowBucket (frs : List Frag) : ℚ :=
  let pos := ((validItems frs).map fun f => f.height).filter fun h => decide (0 < h)
  max 8 ((if pos.isEmpty then 20 else median pos) * 0.8)

/-- The ascending key of claim C3: `(floor(top / row_bucket), left, top)`. -/
def specHKey (frs : List Frag) (f : Frag) : ℤ × ℚ × ℚ :=
  (⌊f.top / specRowBucket frs⌋, f.left, f.top)

/-- Column bucket as worded in claim C4:
`max(12, median(nonzero fragment widths) * 1.2)` over the valid fragments. -/
def specColBucket (frs : List Frag) : ℚ :=
  max 12 (median (((validItems frs).map fun f => f.width).filter fun w => decide (0 < w)) * 1.2)

/-- The ascending key of claim C4: `(-floor(left / col_bucket), top, -left)`. -/
def specVKey (frs : List Frag) (f : Frag) : ℤ × ℚ × ℚ :=
  (-⌊f.left / specColBucket frs⌋, f.top, -f.left)

theorem median_singleton (x : ℚ) : median [x] = x := by
  simp [median, List.insertionSort, List.orderedInsert]

theorem median_default (pos : List ℚ) :
    median (if pos.isEmpty then [20] else pos) = if pos.isEmpty then 20 else median pos := by
  split_ifs with h
  · exact median_singleton 20
  · rfl

/-- Branch-level characterization of `sort_words`, with the lets lifted out. -/
theorem sort_words_eq (frs : List Frag) (layout : String) :
    sort_words frs layout =
      if (validItems frs).isEmpty then []
      else if layout = "vertical-rtl" then
        (validItems frs).insertionSort (vLe (vStepD frs))
      else (validItems frs).insertionSort (hLe (hStepD frs)) := by
  simp only [sort_words, hStepD, vStepD]

theorem hStepD_eq (frs : List Frag) : hStepD frs = specRowBucket frs := by
  simp only [hStepD, specRowBucket, median_default]

theorem vStepD_eq (frs : List Frag)
    (hpos : ¬ (((validItems frs).map fun f => f.width).filter
      fun w => decide (0 < w)).isEmpty) :
    vStepD frs = specColBucket frs := by
  simp only [vStepD, specColBucket, median_default, if_neg hpos]

/-- C10: for every fragment list and every layout mode, `sort_words` returns
a permutation of exactly those input fragments whose text is non-empty after
stripping whitespace — in multiset terms, each valid fragment occurrence
appears exactly once in the output and nothing else appears. -/
theorem C10_sort_words_perm (frs : List Frag) (layout : String) :
    (sort_words frs layout).Perm (frs.filter fun f => decide (pyStrip f.words ≠ "")) := by
  show (sort_words frs layout).Perm (validItems frs)
  rw [sort_words_eq]
  split_ifs with h1 h2
  · rw [List.isEmpty_iff] at h1
    rw [h1]
  · exact List.perm_insertionSort _ _
  · exact List.perm_insertionSort _ _

/-- C3: for layout `horizontal`, `sort_words` drops the whitespace-only
fragments and orders the remaining ones ascending by the key
`(floor(top / row_bucket), left, top)` with
`row_bucket = max(8, median(nonzero heights) * 0.8)` (median 20 when no
fragment has positive height): the output is a permutation of the valid
fragments that is sorted by that key. -/
theorem C3_sort_words_horizontal (frs : List Frag) :
    (sort_words frs "horizontal").Perm (validItems frs) ∧
    (sort_words frs "horizontal").Pairwise
      (fun a b => lex3Le (specHKey frs a) (specHKey frs b)) := by
  refine ⟨C10_sort_words_perm frs "horizontal", ?_⟩
  rw [sort_words_eq]
  split_ifs with h1 h2
  · exact List.Pairwise.nil
  · exact absurd h2 (by decide)
  · have hs := List.sorted_insertionSort (hLe (hStepD frs)) (validItems frs)
    refine hs.imp ?_
    intro a b hab
    rw [hStepD_eq] at hab
    exact hab

/-- C4: for layout `vertical-rtl`, provided some valid fragment has positive
width (so that the claim's `median(nonzero widths)` is defined), `sort_words`
orders the valid fragments ascending by the key
`(-floor(left / col_bucket), top, -left)` with
`col_bucket = max(12, median(nonzero widths) * 1.2)`: the output is a
permutation of the valid fragments that is sorted by that key. -/
theorem C4_sort_words_vertical (frs : List Frag)
    (hw : ∃ f ∈ validItems frs, 0 < f.width) :
    (sort_words frs "vertical-rtl").Perm (validItems frs) ∧
    (sort_words frs "vertical-rtl").Pairwise
      (fun a b => lex3Le (specVKey frs a) (specVKey frs b)) := by
  have hpos : ¬ (((validItems frs).map fun f => f.width).filter
      fun w => decide (0 < w)).isEmpty := by
    obtain ⟨f, hf, hfw⟩ := hw
    rw [List.isEmpty_iff]
    intro hempty
    have hmem : f.width ∈ ((validItems frs).map fun f => f.width).filter
        fun w => decide (0 < w) := by
      rw [List.mem_filter]
      exact ⟨List.mem_map_of_mem _ hf, by simpa using hfw⟩
    rw [hempty] at hmem
    exact List.not_mem_nil _ hmem
  refine ⟨C10_sort_words_perm frs "vertical-rtl", ?_⟩
  rw [sort_words_eq]
  split_ifs with h1 h2
  · exact List.Pairwise.nil
  · have hs := List.sorted_insertionSort (vLe (vStepD frs)) (validItems frs)
    refine hs.imp ?_
    intro a b hab
    rw [vStepD_eq frs hpos] at hab
    exact hab
  · exact absurd rfl h2

/-- A concrete-input witness for C4: one valid fragment of positive width. -/
theorem C4_sort_words_vertical_witness :
    (sort_words [⟨0, 0, 5, 5, "a", none⟩] "vertical-rtl").Perm
        (validItems [⟨0, 0, 5, 5, "a", none⟩]) ∧
    (sort_words [⟨0, 0, 5, 5, "a", none⟩] "vertical-rtl").Pairwise
      (fun a b => lex3Le (specVKey [⟨0, 0, 5, 5, "a", none⟩] a)
        (specVKey [⟨0, 0, 5, 5, "a", none⟩] b)) :=
  C4_sort_words_vertical [⟨0, 0, 5, 5, "a", none⟩] (by decide)

/-! ### The layout classifier: claims C2 and C8 -/

instance : Inhabited Frag := ⟨⟨0, 0, 0, 0, "", none⟩⟩

/-- The band id the classifier assigns to the `i`-th fragment (0-based):
`int(left // band_size)` where `band_size` is `max(20, 1.8 * median)` of the
positive widths among fragments `0..i` — the widths seen so far when the
loop reaches fragment `i` — and `40` when none of them is positive. -/
def amendedBand (frs : List Frag) (i : ℕ) : ℤ :=
  let pos := ((frs.take (i + 1)).map fun f => f.width).filter fun w => decide (0 < w)
  let bs : ℚ := if pos.isEmpty then 40 else max 20 (median pos * 1.8)
  ⌊(frs.getD i default).left / bs⌋

/-- The corrected classification condition (what `choose_layout` actually
tests for `auto` and at least two fragments): at least 60% of the fragments
have positive width and height above 1.15 times the width, and the
per-fragment running-median bands cover at least two distinct values. -/
def amendedVerticalCond (frs : List Frag) : Prop :=
  (0.6 : ℚ) ≤ (frs.countP (fun f => decide (0 < f.width ∧ f.width * 1.15 < f.height)) : ℚ) /
      (frs.length : ℚ) ∧
  2 ≤ ((List.range frs.length).map (amendedBand frs)).toFinset.card

/-- The classifier's loop state after the whole list, in closed form. -/
theorem clFold (frs : List Frag) :
    frs.foldl clStep ⟨0, [], ∅⟩ =
      ⟨frs.countP (fun f => decide (0 < f.width ∧ f.width * 1.15 < f.height)),
       (frs.map fun f => f.width).filter (fun w => decide (0 < w)),
       ((List.range frs.length).map (amendedBand frs)).toFinset⟩ := by
  induction frs using List.reverseRecOn with
  | nil => simp
  | append_singleton l x ih =>
    rw [List.foldl_append, ih]
    have hw : (if 0 < x.width then
          ((l.map fun f => f.width).filter (fun w => decide (0 < w))) ++ [x.width]
        else (l.map fun f => f.width).filter (fun w => decide (0 < w))) =
        ((l ++ [x]).map fun f => f.width).filter (fun w => decide (0 < w)) := by
      rw [List.map_append, List.filter_append]
      split_ifs with h
      · simp [List.filter, h]
      · simp [List.filter, h]
    simp only [List.foldl, clStep, CLState.mk.injEq]
    refine ⟨?_, ?_, ?_⟩
    · by_cases h : 0 < x.width ∧ x.width * 1.15 < x.height
      · simp [List.countP_append, List.countP_cons, h]
      · simp [List.countP_append, List.countP_cons, h]
    · exact hw
    · have hlen : (l ++ [x]).length = l.length + 1 := by simp
      have hsame : (List.range l.length).map (amendedBand (l ++ [x])) =
          (List.range l.length).map (amendedBand l) := by
        refine List.map_congr_left ?_
        intro i hi
        rw [List.mem_range] at hi
        unfold amendedBand
        rw [List.take_append_of_le_length (by omega), List.getD_append _ _ _ _ hi]
      have hlast : amendedBand (l ++ [x]) l.length =
          ⌊x.left / (if (if 0 < x.width then
                (List.filter (fun w => decide (0 < w)) (List.map (fun f => f.width) l)) ++ [x.width]
              else List.filter (fun w => decide (0 < w)) (List.map (fun f => f.width) l)).isEmpty
            then (40 : ℚ)
            else max 20 (median (if 0 < x.width then
                (List.filter (fun w => decide (0 < w)) (List.map (fun f => f.width) l)) ++ [x.width]
              else List.filter (fun w => decide (0 < w)) (List.map (fun f => f.width) l)) * 1.8))⌋ := by
        rw [hw]
        unfold amendedBand
        rw [show (l ++ [x]).take (l.length + 1) = l ++ [x] from by rw [← hlen, List.take_length]]
        rw [List.getD_append_right _ _ _ _ (le_refl _)]
        simp
      rw [hlen, List.range_succ, List.map_append, List.toFinset_append, hsame]
      simp only [List.map_cons, List.map_nil, List.toFinset_cons, List.toFinset_nil]
      rw [hlast, Finset.union_comm, Finset.insert_union, Finset.empty_union]

/-- What `choose_layout` decides for `auto` and at least two fragments, in
closed form. -/
theorem choose_layout_auto (frs : List Frag) (h2 : 2 ≤ frs.length) :
    choose_layout frs "auto" =
      if (0.6 : ℚ) ≤ ((frs.foldl clStep ⟨0, [], ∅⟩).vertical_like : ℚ) / (frs.length : ℚ) ∧
          2 ≤ (frs.foldl clStep ⟨0, [], ∅⟩).band_ids.card
        then "vertical-rtl" else "horizontal" := by
  unfold choose_layout
  rw [if_neg (by simp), if_neg (by omega)]

/-- What `choose_layout` decides for `auto` and at least two fragments, in
closed form. -/
theorem choose_layout_auto_iff (frs : List Frag) (h2 : 2 ≤ frs.length) :
    choose_layout frs "auto" = "vertical-rtl" ↔ amendedVerticalCond frs := by
  rw [choose_layout_auto frs h2, clFold]
  split_ifs with h
  · exact iff_of_true rfl h
  · exact iff_of_false (by decide) h

/-- The band width as worded in claim C2: `max(20, median(nonzero widths
over ALL fragments) * 1.8)` (we keep the source's default `40` for the case
of no positive width, which the claim leaves undefined). -/
def claimBandSize (frs : List Frag) : ℚ :=
  let pos := (frs.map fun f => f.width).filter fun w => decide (0 < w)
  if pos.isEmpty then 40 else max 20 (median pos * 1.8)

/-- The classification condition exactly as claim C2 states it: at least
60% of the fragments have height above 1.15 times their width, and the
fragments' `left` coordinates fall into at least 2 distinct bands of width
`claimBandSize` — one single band width computed from the whole list. -/
def claimVerticalCond (frs : List Frag) : Prop :=
  (0.6 : ℚ) ≤ (frs.countP (fun f => decide (f.width * 1.15 < f.height)) : ℚ) /
      (frs.length : ℚ) ∧
  2 ≤ ((frs.map fun f => ⌊f.left / claimBandSize frs⌋).toFinset).card

/-- First fragment of the C2 counterexample: narrow (width 10), so the
running band width is still `20` when its band is computed. -/
def fragA : Frag := ⟨25, 0, 10, 50, "a", none⟩

/-- Second fragment of the C2 counterexample: wide (width 100), so the
whole-list median band width is `99`. -/
def fragB : Frag := ⟨0, 0, 100, 200, "b", none⟩

/-- C2 (counterexample): on `[fragA, fragB]` the code classifies
`vertical-rtl` (it assigns band `⌊25/20⌋ = 1` to `fragA` using the running
band width 20, and band `⌊0/99⌋ = 0` to `fragB`), while the claim's
condition — a single band width `max(20, median(all nonzero widths)*1.8) =
99` — puts both fragments into band 0 and so demands `horizontal`. -/
theorem C2_counterexample_running_median :
    choose_layout [fragA, fragB] "auto" = "vertical-rtl" ∧
    ¬ claimVerticalCond [fragA, fragB] := by
  constructor
  · rw [choose_layout_auto_iff _ (by decide)]
    have h0 : amendedBand [fragA, fragB] 0 = 1 := by
      norm_num [amendedBand, fragA, fragB, median, List.insertionSort, List.orderedInsert]
    have h1 : amendedBand [fragA, fragB] 1 = 0 := by
      norm_num [amendedBand, fragA, fragB, median, List.insertionSort, List.orderedInsert]
    have hc : List.countP (fun f => decide (0 < f.width ∧ f.width * 1.15 < f.height))
        [fragA, fragB] = 2 := by
      norm_num [List.countP, List.countP.go, fragA, fragB]
    refine ⟨?_, ?_⟩
    · rw [hc]
      norm_num [fragA, fragB]
    · rw [show List.range ([fragA, fragB].length) = [0, 1] from rfl]
      rw [List.map_cons, List.map_cons, List.map_nil, h0, h1]
      decide
  · intro hclaim
    have hband : claimBandSize [fragA, fragB] = 99 := by
      norm_num [claimBandSize, fragA, fragB, median, List.insertionSort, List.orderedInsert]
    have h2 := hclaim.2
    rw [List.map_cons, List.map_cons, List.map_nil, hband] at h2
    have ha : (⌊fragA.left / (99 : ℚ)⌋ : ℤ) = 0 := by norm_num [fragA]
    have hb : (⌊fragB.left / (99 : ℚ)⌋ : ℤ) = 0 := by norm_num [fragB]
    rw [ha, hb] at h2
    exact absurd h2 (by decide)

/-- C2 (amended): for at least two fragments and requested layout `auto`,
the classifier returns `vertical-rtl` iff at least 60% of the fragments
have positive width and height exceeding 1.15 times the width, AND the
band ids cover at least 2 distinct values — where the band id of the i-th
fragment is `floor(left_i / band_i)` with `band_i = max(20, 1.8 * median)`
of the positive widths among fragments `1..i` (the widths seen so far; 40
while none is positive), not a single band width from all fragments as the
claim stated. -/
theorem C2_choose_layout_amended (frs : List Frag) (h2 : 2 ≤ frs.length) :
    choose_layout frs "auto" = "vertical-rtl" ↔ amendedVerticalCond frs :=
  choose_layout_auto_iff frs h2

/-- Witness for C2 (amended) at the concrete counterexample input. -/
theorem C2_choose_layout_amended_witness :
    choose_layout [fragA, fragB] "auto" = "vertical-rtl" ↔
      amendedVerticalCond [fragA, fragB] :=
  C2_choose_layout_amended [fragA, fragB] (by decide)

/-- The four tall/narrow fragments of claim C8, spanning two left bands. -/
def c8frs : List Frag :=
  [⟨0, 0, 10, 50, "", none⟩, ⟨0, 60, 10, 50, "", none⟩,
   ⟨100, 0, 10, 55, "", none⟩, ⟨100, 60, 10, 50, "", none⟩]

/-- C8: on the four fragments `{left 0/100, width 10, height 50/55}` with
requested layout `auto`, `choose_layout` returns `vertical-rtl`. -/
theorem C8_classifier_vertical_example :
    choose_layout c8frs "auto" = "vertical-rtl" := by
  rw [choose_layout_auto_iff _ (by decide)]
  have h0 : amendedBand c8frs 0 = 0 := by
    norm_num [amendedBand, c8frs, median, List.insertionSort, List.orderedInsert]
  have h1 : amendedBand c8frs 1 = 0 := by
    norm_num [amendedBand, c8frs, median, List.insertionSort, List.orderedInsert]
  have h2 : amendedBand c8frs 2 = 5 := by
    norm_num [amendedBand, c8frs, median, List.insertionSort, List.orderedInsert]
  have h3 : amendedBand c8frs 3 = 5 := by
    norm_num [amendedBand, c8frs, median, List.insertionSort, List.orderedInsert]
  have hc : List.countP (fun f => decide (0 < f.width ∧ f.width * 1.15 < f.height))
      c8frs = 4 := by
    norm_num [List.countP, List.countP.go, c8frs]
  refine ⟨?_, ?_⟩
  · rw [hc]
    norm_num [c8frs]
  · rw [show List.range (c8frs.length) = [0, 1, 2, 3] from rfl]
    rw [List.map_cons, List.map_cons, List.map_cons, List.map_cons, List.map_nil,
      h0, h1, h2, h3]
    decide

/-! ### The initial runner: loop lemmas -/

/-- The rows `run_ocr_task` obtains for page `i` (empty when the page's
recognition raises). -/
def pageRows (env : OcrEnv) (i : ℕ) : List Row :=
  match env.recognize i with
  | some words => recognize_single_page (imageName env.pdfStem i) (i : ℤ) words env.layout
  | none => []

/-- The conversion loop never touches `status`, `pages_total`,
`failed_pages` or `pages_done`. -/
theorem convLoop_preserves (env : OcrEnv) (n : ℕ) :
    ∀ (pages : List ℕ) (t : TaskState) (paths : List String) (tr : List ℕ),
      (convLoop env n pages t paths tr).1.status = t.status ∧
      (convLoop env n pages t paths tr).1.pages_total = t.pages_total ∧
      (convLoop env n pages t paths tr).1.failed_pages = t.failed_pages ∧
      (convLoop env n pages t paths tr).1.pages_done = t.pages_done := by
  intro pages
  induction pages with
  | nil => intro t paths tr; exact ⟨rfl, rfl, rfl, rfl⟩
  | cons idx rest ih =>
    intro t paths tr
    simp only [convLoop]
    split_ifs with h1 h2
    · exact ⟨rfl, rfl, rfl, rfl⟩
    · exact ih _ _ _
    · exact ⟨rfl, rfl, rfl, rfl⟩

/-- The recognition loop never touches `status`, `pages_total` or
`failed_pages` (the failed list it collects lives outside the task). -/
theorem recLoop_preserves (env : OcrEnv) (n : ℕ) :
    ∀ (pages : List ℕ) (t : TaskState) (rows : List Row) (failed : List ℤ) (tr : List ℕ),
      (recLoop env n pages t rows failed tr).1.status = t.status ∧
      (recLoop env n pages t rows failed tr).1.pages_total = t.pages_total ∧
      (recLoop env n pages t rows failed tr).1.failed_pages = t.failed_pages := by
  intro pages
  induction pages with
  | nil => intro t rows failed tr; exact ⟨rfl, rfl, rfl⟩
  | cons idx rest ih =>
    intro t rows failed tr
    simp only [recLoop]
    split_ifs with h1
    · exact ⟨rfl, rfl, rfl⟩
    · exact ih _ _ _ _

/-- If no cancellation is observed at the conversion checks, the conversion
loop finishes. -/
theorem convLoop_finishes (env : OcrEnv) (n : ℕ) :
    ∀ (pages : List ℕ) (t : TaskState) (paths : List String) (tr : List ℕ),
      (∀ i ∈ pages, cancelAt env.cancelFrom i = false) →
      (∀ i ∈ pages, env.renderOk i = true) →
      (convLoop env n pages t paths tr).2.2.2 = RunExit.finished := by
  intro pages
  induction pages with
  | nil => intro t paths tr _ _; rfl
  | cons idx rest ih =>
    intro t paths tr hnc hr
    simp only [convLoop]
    rw [hnc idx (List.mem_cons_self _ _)]
    rw [if_neg (by simp)]
    rw [if_pos (hr idx (List.mem_cons_self _ _))]
    exact ih _ _ _ (fun i hi => hnc i (List.mem_cons_of_mem _ hi))
      (fun i hi => hr i (List.mem_cons_of_mem _ hi))

/-- Closed form of the recognition loop when no cancellation is observed at
its checks: it runs through all pages, appends each page's rows, records
exactly the failing pages in order, and does not raise. -/
theorem recLoop_no_cancel (env : OcrEnv) (n : ℕ) :
    ∀ (pages : List ℕ) (t : TaskState) (rows : List Row) (failed : List ℤ) (tr : List ℕ),
      (∀ i ∈ pages, cancelAt env.cancelFrom (n + i) = false) →
      (recLoop env n pages t rows failed tr).2.1 =
        rows ++ (pages.map (pageRows env)).flatten ∧
      (recLoop env n pages t rows failed tr).2.2.1 =
        failed ++ (pages.filter fun i => (env.recognize i).isNone).map
          (fun (i : ℕ) => (i : ℤ)) ∧
      (recLoop env n pages t rows failed tr).2.2.2.2 = false := by
  intro pages
  induction pages with
  | nil => intro t rows failed tr _; simp [recLoop]
  | cons idx rest ih =>
    intro t rows failed tr hnc
    have htl : ∀ i ∈ rest, cancelAt env.cancelFrom (n + i) = false :=
      fun i hi => hnc i (List.mem_cons_of_mem _ hi)
    simp only [recLoop]
    rw [hnc idx (List.mem_cons_self _ _)]
    rw [if_neg (by simp)]
    cases hrec : env.recognize idx with
    | some words =>
      refine ⟨?_, ?_, ?_⟩
      · rw [(ih _ _ _ _ htl).1]
        simp [pageRows, hrec, List.append_assoc]
      · rw [(ih _ _ _ _ htl).2.1]
        simp [hrec]
      · exact (ih _ _ _ _ htl).2.2
    | none =>
      refine ⟨?_, ?_, ?_⟩
      · rw [(ih _ _ _ _ htl).1]
        simp [pageRows, hrec]
      · rw [(ih _ _ _ _ htl).2.1]
        simp [hrec, List.append_assoc]
      · exact (ih _ _ _ _ htl).2.2

/-- The recognition loop stops with a `TaskCancelledError` at the first page
whose check observes the flag, returning the state accumulated on the
preceding pages. -/
theorem recLoop_stops (env : OcrEnv) (n : ℕ) :
    ∀ (pre : List ℕ) (j : ℕ) (post : List ℕ) (t : TaskState) (rows : List Row)
      (failed : List ℤ) (tr : List ℕ),
      (∀ i ∈ pre, cancelAt env.cancelFrom (n + i) = false) →
      cancelAt env.cancelFrom (n + j) = true →
      recLoop env n (pre ++ j :: post) t rows failed tr =
        ((recLoop env n pre t rows failed tr).1,
         (recLoop env n pre t rows failed tr).2.1,
         (recLoop env n pre t rows failed tr).2.2.1,
         (recLoop env n pre t rows failed tr).2.2.2.1, true) := by
  intro pre
  induction pre with
  | nil =>
    intro j post t rows failed tr _ hj
    simp only [List.nil_append, recLoop, hj]
    simp
  | cons p pre' ih =>
    intro j post t rows failed tr hnc hj
    simp only [List.cons_append, recLoop]
    rw [hnc p (List.mem_cons_self _ _)]
    rw [if_neg (by simp)]
    exact ih j post _ _ _ _ (fun i hi => hnc i (List.mem_cons_of_mem _ hi)) hj

/-- C5: when an initial run attempts every page (authentication and all
renders succeed, no cancellation) it ends `completed` or
`completed_with_errors`, with `pages_done = pages_total` and
`|failed_pages| + #(successful pages) = pages_total`. -/
theorem C5_completion_counts (env : OcrEnv) (ha : env.authOk = true)
    (hn : env.pageCount ≠ 0) (hr : ∀ i, env.renderOk i = true)
    (hc : env.cancelFrom = none) :
    ((run_ocr_task env).1.task.status = "completed" ∨
      (run_ocr_task env).1.task.status = "completed_with_errors") ∧
    (run_ocr_task env).1.task.pages_done = (run_ocr_task env).1.task.pages_total ∧
    (run_ocr_task env).1.task.failed_pages.length +
      (List.range' 1 env.pageCount).countP (fun i => (env.recognize i).isSome) =
      env.pageCount := by
  have hnc : ∀ i, cancelAt env.cancelFrom i = false := fun i => by simp [cancelAt, hc]
  have hcount : ((List.range' 1 env.pageCount).filter
        (fun i => (env.recognize i).isNone)).length +
      (List.range' 1 env.pageCount).countP (fun i => (env.recognize i).isSome) =
      env.pageCount := by
    have hsplit := List.length_eq_countP_add_countP
      (fun i => (env.recognize i).isNone) (l := List.range' 1 env.pageCount)
    rw [List.length_range'] at hsplit
    have hiff : (List.range' 1 env.pageCount).countP
        (fun i => ¬ (env.recognize i).isNone) =
        (List.range' 1 env.pageCount).countP (fun i => (env.recognize i).isSome) := by
      congr 1
      funext i
      cases env.recognize i <;> simp
    rw [hiff, List.countP_eq_length_filter] at hsplit
    omega
  dsimp only [run_ocr_task]
  rw [if_neg (by simp [ha]), if_neg hn]
  rw [if_neg (by
    rw [convLoop_finishes env _ _ _ _ _ (fun i _ => hnc i) (fun i _ => hr i)]
    simp)]
  rw [if_neg (by
    rw [convLoop_finishes env _ _ _ _ _ (fun i _ => hnc i) (fun i _ => hr i)]
    simp)]
  · rw [(recLoop_no_cancel env _ _ _ _ _ _ (fun i _ => hnc _)).2.2]
    rw [if_neg (by simp)]
    rw [(recLoop_no_cancel env _ _ _ _ _ _ (fun i _ => hnc _)).2.1]
    simp only [List.nil_append]
    split_ifs with hfe
    · refine ⟨Or.inl rfl, ?_, ?_⟩
      · dsimp only
        rw [(recLoop_preserves env _ _ _ _ _ _).2.1]
        dsimp only
        rw [(convLoop_preserves env _ _ _ _ _).2.1]
      · dsimp only
        rw [List.isEmpty_iff, List.map_eq_nil_iff] at hfe
        have hzero : ((List.range' 1 env.pageCount).filter
            (fun i => (env.recognize i).isNone)).length = 0 := by
          rw [hfe]
          rfl
        simp only [List.length_nil]
        omega
    · refine ⟨Or.inr rfl, ?_, ?_⟩
      · dsimp only
        rw [(recLoop_preserves env _ _ _ _ _ _).2.1]
        dsimp only
        rw [(convLoop_preserves env _ _ _ _ _).2.1]
      · dsimp only
        rw [List.length_map]
        exact hcount

theorem readRows_write (rows : List Row) :
    readRows (if rows.isEmpty then none else some rows) = rows := by
  split_ifs with h
  · rw [List.isEmpty_iff] at h
    simp [readRows, h]
  · rfl

/-- C9: if an initial run ends `canceled`, the per-page failures collected
before the cancel are never written to the record: `failed_pages` is still
empty and the status endpoint reports `can_retry = false`. -/
theorem C9_canceled_initial_run_not_retryable (env : OcrEnv)
    (hcanc : (run_ocr_task env).1.task.status = "canceled") :
    (run_ocr_task env).1.task.failed_pages = [] ∧
    api_can_retry (run_ocr_task env).1.task = false := by
  have hfp : (run_ocr_task env).1.task.status = "canceled" →
      (run_ocr_task env).1.task.failed_pages = [] := by
    dsimp only [run_ocr_task]
    by_cases hauth : env.authOk = true
    · rw [if_neg (by simp [hauth])]
      by_cases hpc : env.pageCount = 0
      · rw [if_pos hpc]
        intro h
        exact absurd h (by decide)
      · rw [if_neg hpc]
        split_ifs with he1 he2 h1 h2 h3
        · intro _
          dsimp only
          rw [(convLoop_preserves env _ _ _ _ _).2.2.1]
          simp [initialTask]
        · intro h
          dsimp only at h
          exact absurd h (by decide)
        · intro _
          rw [(recLoop_preserves env _ _ _ _ _ _).2.2]
          dsimp only
          rw [(convLoop_preserves env _ _ _ _ _).2.2.1]
          simp [initialTask]
        · intro _
          rw [(recLoop_preserves env _ _ _ _ _ _).2.2]
          dsimp only
          rw [(convLoop_preserves env _ _ _ _ _).2.2.1]
          simp [initialTask]
        · intro h
          dsimp only at h
          exact absurd h (by decide)
        · intro h
          dsimp only at h
          exact absurd h (by decide)
    · rw [if_pos hauth]
      intro h
      exact absurd h (by decide)
  refine ⟨hfp hcanc, ?_⟩
  simp [api_can_retry, hfp hcanc]

/-- C6: if cancellation is observed at the recognition check of page `k+1`
(so pages `1..k` were recognized, none failing), the run ends `canceled`
and the persisted result set holds exactly the rows of pages `1..k`. -/
theorem C6_cancel_mid_recognition (env : OcrEnv) (k : ℕ) (ha : env.authOk = true)
    (hr : ∀ i, env.renderOk i = true) (hk : k < env.pageCount)
    (hc : env.cancelFrom = some (env.pageCount + k + 1))
    (hs : ∀ i ∈ List.range' 1 k, (env.recognize i).isSome) :
    (run_ocr_task env).1.task.status = "canceled" ∧
    readRows (run_ocr_task env).1.file =
      ((List.range' 1 k).map (pageRows env)).flatten := by
  have hnc_conv : ∀ i ∈ List.range' 1 env.pageCount, cancelAt env.cancelFrom i = false := by
    intro i hi
    rw [List.mem_range'] at hi
    simp only [cancelAt, hc, decide_eq_false_iff_not]
    omega
  have hpre : ∀ i ∈ List.range' 1 k,
      cancelAt env.cancelFrom (env.pageCount + i) = false := by
    intro i hi
    rw [List.mem_range'] at hi
    simp only [cancelAt, hc, decide_eq_false_iff_not]
    omega
  have hstop : cancelAt env.cancelFrom (env.pageCount + (k + 1)) = true := by
    simp only [cancelAt, hc, decide_eq_true_eq]
    omega
  have hsplit : List.range' 1 env.pageCount =
      List.range' 1 k ++ ((k + 1) :: List.range' (k + 2) (env.pageCount - k - 1)) := by
    have h1 : (k + 1) :: List.range' (k + 2) (env.pageCount - k - 1) =
        List.range' (k + 1) (env.pageCount - k) := by
      rw [show env.pageCount - k = (env.pageCount - k - 1) + 1 from by omega]
      rfl
    rw [h1, show k + 1 = 1 + k from by omega, List.range'_append_1]
    congr 1
    omega
  dsimp only [run_ocr_task]
  rw [if_neg (by simp [ha]), if_neg (by omega)]
  rw [if_neg (by
    rw [convLoop_finishes env _ _ _ _ _ hnc_conv (fun i _ => hr i)]
    simp)]
  rw [if_neg (by
    rw [convLoop_finishes env _ _ _ _ _ hnc_conv (fun i _ => hr i)]
    simp)]
  · rw [hsplit, recLoop_stops env _ _ _ _ _ _ _ _ hpre hstop]
    dsimp only
    rw [if_pos rfl]
    refine ⟨rfl, ?_⟩
    dsimp only
    rw [(recLoop_no_cancel env _ _ _ _ _ _ hpre).1]
    rw [List.nil_append]
    exact readRows_write _

/-! ### The retry runner: claim C1 -/

/-- The rows a retry run obtains for failed page `page` (empty when its
recognition raises again or the page is out of range and skipped). -/
def retryPageRows (env : RetryEnv) (images : List String) (page : ℤ) : List Row :=
  match env.recognize page with
  | some words =>
    recognize_single_page (images.getD (page - 1).toNat "") page words env.layout
  | none => []

theorem build_rows_page (img : String) (p : ℤ) (ws : List Frag) (lay : String) :
    ∀ r ∈ build_rows img p ws lay, r.page_no = p := by
  intro r hr
  unfold build_rows at hr
  rw [List.mem_map] at hr
  obtain ⟨q, _, rfl⟩ := hr
  rfl

theorem build_rows_keys (img : String) (p : ℤ) (ws : List Frag) (lay : String) :
    (build_rows img p ws lay).map rowKey =
      (List.range (sort_words ws lay).length).map (fun (i : ℕ) => (p, (i : ℤ) + 1)) := by
  have h1 : (build_rows img p ws lay).map rowKey
      = (sort_words ws lay).enum.map (fun q => (p, (q.1 : ℤ) + 1)) := by
    unfold build_rows
    rw [List.map_map]
    exact List.map_congr_left (fun q _ => rfl)
  rw [h1]
  have h2 : (sort_words ws lay).enum.map (fun q => (p, (q.1 : ℤ) + 1))
      = ((sort_words ws lay).enum.map Prod.fst).map (fun (i : ℕ) => (p, (i : ℤ) + 1)) := by
    rw [List.map_map]
    exact List.map_congr_left (fun q _ => rfl)
  rw [h2, List.enum_map_fst]

theorem retryPageRows_page (env : RetryEnv) (images : List String) (p : ℤ) :
    ∀ r ∈ retryPageRows env images p, r.page_no = p := by
  intro r hr
  unfold retryPageRows at hr
  cases hrec : env.recognize p with
  | some words =>
    rw [hrec] at hr
    exact build_rows_page _ _ _ _ r hr
  | none =>
    rw [hrec] at hr
    exact absurd hr (List.not_mem_nil r)

theorem retryPageRows_keys_nodup (env : RetryEnv) (images : List String) (p : ℤ) :
    ((retryPageRows env images p).map rowKey).Nodup := by
  unfold retryPageRows
  cases hrec : env.recognize p with
  | some words =>
    unfold recognize_single_page
    rw [build_rows_keys]
    refine List.Nodup.map ?_ (List.nodup_range _)
    intro i j hij
    rw [Prod.mk.injEq] at hij
    omega
  | none => simp

/-- The keys of the freshly recognized rows of a retry run are pairwise
distinct when the retried page list has no duplicates. -/
theorem retryNewRows_keys_nodup (env : RetryEnv) (images : List String) :
    ∀ (failed : List ℤ), failed.Nodup →
      (((failed.map fun p => retryPageRows env images p).flatten).map rowKey).Nodup := by
  intro failed
  induction failed with
  | nil => intro _; simp
  | cons p rest ih =>
    intro hnd
    rw [List.map_cons, List.flatten_cons, List.map_append, List.nodup_append]
    refine ⟨retryPageRows_keys_nodup env images p, ih hnd.of_cons, ?_⟩
    intro k hk1 hk2
    rw [List.mem_map] at hk1
    obtain ⟨r1, hr1, rfl⟩ := hk1
    rw [List.mem_map] at hk2
    obtain ⟨r2, hr2, hk⟩ := hk2
    rw [List.mem_flatten] at hr2
    obtain ⟨blk, hblk, hr2m⟩ := hr2
    rw [List.mem_map] at hblk
    obtain ⟨q, hq, rfl⟩ := hblk
    have e1 : r1.page_no = p := retryPageRows_page env images p r1 hr1
    have e2 : r2.page_no = q := retryPageRows_page env images q r2 hr2m
    have hqp : q = p := by
      have hfst := congrArg Prod.fst hk
      simp only [rowKey] at hfst
      rw [e1, e2] at hfst
      exact hfst
    rw [List.nodup_cons] at hnd
    exact hnd.1 (hqp ▸ hq)

/-- Closed form of the retry page loop when no cancellation is observed and
every failed page number is in range: it collects the freshly recognized
rows of the retried pages in order and does not raise. -/
theorem retryLoop_no_cancel (env : RetryEnv) (images : List String) (total : ℕ) :
    ∀ (pairs : List (ℕ × ℤ)) (t : TaskState) (retried : List Row)
      (remaining : List ℤ) (tr : List ℕ),
      (∀ q ∈ pairs, cancelAt env.cancelFrom q.1 = false) →
      (∀ q ∈ pairs, 1 ≤ q.2 ∧ q.2 ≤ (images.length : ℤ)) →
      (retryLoop env images total pairs t retried remaining tr).2.1 =
        retried ++ (pairs.map fun q => retryPageRows env images q.2).flatten ∧
      (retryLoop env images total pairs t retried remaining tr).2.2.2.2 = false := by
  intro pairs
  induction pairs with
  | nil => intro t retried remaining tr _ _; simp [retryLoop]
  | cons q rest ih =>
    intro t retried remaining tr hnc hrange
    have htl1 : ∀ q ∈ rest, cancelAt env.cancelFrom q.1 = false :=
      fun q hq => hnc q (List.mem_cons_of_mem _ hq)
    have htl2 : ∀ q ∈ rest, 1 ≤ q.2 ∧ q.2 ≤ (images.length : ℤ) :=
      fun q hq => hrange q (List.mem_cons_of_mem _ hq)
    obtain ⟨idx, page⟩ := q
    have hq0 := hrange _ (List.mem_cons_self _ _)
    simp only [retryLoop]
    rw [hnc _ (List.mem_cons_self _ _)]
    rw [if_neg (by simp)]
    rw [if_neg (by push_neg; omega)]
    cases hrec : env.recognize page with
    | some words =>
      refine ⟨?_, (ih _ _ _ _ htl1 htl2).2⟩
      rw [(ih _ _ _ _ htl1 htl2).1]
      simp [retryPageRows, hrec, List.append_assoc]
    | none =>
      refine ⟨?_, (ih _ _ _ _ htl1 htl2).2⟩
      rw [(ih _ _ _ _ htl1 htl2).1]
      simp [retryPageRows, hrec]

/-- The rows newly recognized by a retry run, in the order of the recorded
failed pages (claim C1's "rows newly recognized for the retried pages"). -/
def retryNewRows (env : RetryEnv) (w : World) : List Row :=
  (w.task.failed_pages.map fun p => retryPageRows env w.task.image_paths p).flatten

/-- Claim C1's description of the result set written by a retry: the
previously persisted rows whose `page_no` is not in the original failed
set, plus the newly recognized rows, sorted ascending by
`(page_no, line_no)`. -/
def retryMerged (env : RetryEnv) (w : World) (existing : List Row) : List Row :=
  ((existing.filter fun r => decide (r.page_no ∉ w.task.failed_pages)) ++
    retryNewRows env w).insertionSort rowLe

theorem retryNewRows_pages (env : RetryEnv) (w : World) :
    ∀ r ∈ retryNewRows env w, r.page_no ∈ w.task.failed_pages := by
  intro r hr
  unfold retryNewRows at hr
  rw [List.mem_flatten] at hr
  obtain ⟨blk, hblk, hrm⟩ := hr
  rw [List.mem_map] at hblk
  obtain ⟨p, hp, rfl⟩ := hblk
  rw [retryPageRows_page env _ p r hrm]
  exact hp

/-- C1: a completed retry run on a job with a persisted result set and a
non-empty `failed_pages` list (whose entries are the in-range, distinct
page numbers recorded by the previous run, and whose persisted rows are
sorted with distinct `(page_no, line_no)` keys, as the runner writes them)
overwrites the result set with exactly: the previously persisted rows of
non-failed pages plus the newly recognized rows, sorted by
`(page_no, line_no)` — sorted, with no stale row for a retried page, no
duplicate `(page_no, line_no)` key, and the rows of non-retried pages
identical to what was persisted before. -/
theorem C1_retry_merge (env : RetryEnv) (w : World) (existing : List Row)
    (hfile : w.file = some existing)
    (hne : w.task.failed_pages ≠ [])
    (hpos : ∀ p ∈ w.task.failed_pages, 1 ≤ p ∧ p ≤ (w.task.image_paths.length : ℤ))
    (hnodup : w.task.failed_pages.Nodup)
    (hauth : env.authOk = true)
    (hc : env.cancelFrom = none)
    (hsorted : existing.Pairwise rowLe)
    (hkeys : (existing.map rowKey).Nodup) :
    (run_retry_task env w).1.file = some (retryMerged env w existing) ∧
    (retryMerged env w existing).Pairwise rowLe ∧
    (∀ r ∈ retryMerged env w existing,
      r.page_no ∈ w.task.failed_pages → r ∈ retryNewRows env w) ∧
    ((retryMerged env w existing).map rowKey).Nodup ∧
    (retryMerged env w existing).filter
        (fun r => decide (r.page_no ∉ w.task.failed_pages)) =
      existing.filter (fun r => decide (r.page_no ∉ w.task.failed_pages)) := by
  have hfeq : w.task.failed_pages.filter (fun p => decide (0 < p)) =
      w.task.failed_pages := by
    rw [List.filter_eq_self]
    intro p hp
    rw [decide_eq_true_eq]
    have := (hpos p hp).1
    omega
  have himgs : w.task.image_paths ≠ [] := by
    intro h0
    obtain ⟨p, hp⟩ := List.exists_mem_of_ne_nil _ hne
    have := hpos p hp
    rw [h0] at this
    simp at this
    omega
  have hkept_nodup : ((existing.filter
      (fun r => decide (r.page_no ∉ w.task.failed_pages))).map rowKey).Nodup :=
    hkeys.sublist ((List.filter_sublist _).map rowKey)
  have hkept_sorted : (existing.filter
      (fun r => decide (r.page_no ∉ w.task.failed_pages))).Pairwise rowLe :=
    hsorted.sublist (List.filter_sublist _)
  refine ⟨?_, List.sorted_insertionSort _ _, ?_, ?_, ?_⟩
  · -- the run writes exactly the merged, re-sorted set
    have hA : ∀ q ∈ w.task.failed_pages.enumFrom 1,
        cancelAt env.cancelFrom q.1 = false := by
      intro q _
      simp [cancelAt, hc]
    have hB : ∀ q ∈ w.task.failed_pages.enumFrom 1,
        1 ≤ q.2 ∧ q.2 ≤ (w.task.image_paths.length : ℤ) := by
      intro q hq
      have hmem : q.2 ∈ (w.task.failed_pages.enumFrom 1).map Prod.snd :=
        List.mem_map_of_mem _ hq
      rw [List.enumFrom_map_snd] at hmem
      exact hpos _ hmem
    have hmap : (w.task.failed_pages.enumFrom 1).map
          (fun q => retryPageRows env w.task.image_paths q.2) =
        w.task.failed_pages.map (fun p => retryPageRows env w.task.image_paths p) := by
      rw [show (fun (q : ℕ × ℤ) => retryPageRows env w.task.image_paths q.2) =
          ((fun p => retryPageRows env w.task.image_paths p) ∘ Prod.snd) from rfl]
      rw [← List.map_map, List.enumFrom_map_snd]
    dsimp only [run_retry_task]
    rw [hfeq]
    rw [if_neg (by simp [List.isEmpty_iff, hne, himgs])]
    rw [if_neg (by simp [hauth])]
    rw [(retryLoop_no_cancel env _ _ _ _ _ _ _ hA hB).2]
    rw [if_neg (by simp)]
    rw [(retryLoop_no_cancel env _ _ _ _ _ _ _ hA hB).1]
    rw [List.nil_append, hmap, hfile]
    rw [show readRows (some existing) = existing from rfl]
    split_ifs with hrem
    · rfl
    · rfl
  · -- no stale rows: any merged row of a retried page is newly recognized
    intro r hr hmem
    unfold retryMerged at hr
    rw [List.mem_insertionSort, List.mem_append] at hr
    rcases hr with hr | hr
    · rw [List.mem_filter, decide_eq_true_eq] at hr
      exact absurd hmem hr.2
    · exact hr
  · -- no duplicate (page_no, line_no) keys
    have hp : ((retryMerged env w existing).map rowKey).Perm
        (((existing.filter (fun r => decide (r.page_no ∉ w.task.failed_pages)) ++
          retryNewRows env w)).map rowKey) :=
      (List.perm_insertionSort _ _).map rowKey
    rw [hp.nodup_iff]
    rw [List.map_append, List.nodup_append]
    refine ⟨hkept_nodup, retryNewRows_keys_nodup env _ _ hnodup, ?_⟩
    intro k hk1 hk2
    rw [List.mem_map] at hk1
    obtain ⟨r1, hr1, rfl⟩ := hk1
    rw [List.mem_map] at hk2
    obtain ⟨r2, hr2, hk⟩ := hk2
    rw [List.mem_filter, decide_eq_true_eq] at hr1
    have h2 : r2.page_no ∈ w.task.failed_pages := retryNewRows_pages env w r2 hr2
    have hfst := congrArg Prod.fst hk
    simp only [rowKey] at hfst
    rw [hfst] at h2
    exact hr1.2 h2
  · -- rows of non-retried pages are exactly the previously persisted ones
    have hfilter_new : (retryNewRows env w).filter
        (fun r => decide (r.page_no ∉ w.task.failed_pages)) = [] := by
      rw [List.filter_eq_nil_iff]
      intro r hr
      rw [decide_eq_true_eq]
      intro hnot
      exact hnot (retryNewRows_pages env w r hr)
    have hfilter_kept : (existing.filter
          (fun r => decide (r.page_no ∉ w.task.failed_pages))).filter
        (fun r => decide (r.page_no ∉ w.task.failed_pages)) =
        existing.filter (fun r => decide (r.page_no ∉ w.task.failed_pages)) := by
      rw [List.filter_eq_self]
      intro r hr
      exact (List.mem_filter.mp hr).2
    have hpf : ((retryMerged env w existing).filter
        (fun r => decide (r.page_no ∉ w.task.failed_pages))).Perm
        (existing.filter (fun r => decide (r.page_no ∉ w.task.failed_pages))) := by
      have h1 := (List.perm_insertionSort rowLe
        ((existing.filter (fun r => decide (r.page_no ∉ w.task.failed_pages))) ++
          retryNewRows env w)).filter
        (fun r => decide (r.page_no ∉ w.task.failed_pages))
      unfold retryMerged
      rw [List.filter_append, hfilter_new, hfilter_kept, List.append_nil] at h1
      exact h1
    refine @List.Perm.eq_of_sorted Row rowLe _ _ ?_ ?_ ?_ hpf
    · intro a b hma hmb hab hba
      have hka := rowLe_antisymm_key hab hba
      have hma' : a ∈ existing.filter
          (fun r => decide (r.page_no ∉ w.task.failed_pages)) := hpf.subset hma
      exact List.inj_on_of_nodup_map hkept_nodup hma' hmb hka
    · exact (List.sorted_insertionSort rowLe _).sublist (List.filter_sublist _)
    · exact hkept_sorted

/-! ### Progress monotonicity: claim C7 -/

theorem pConv_mono (n : ℕ) {i j : ℕ} (h : i ≤ j) : pConv n i ≤ pConv n j := by
  have h1 : 40 * i / n ≤ 40 * j / n := Nat.div_le_div_right (by omega)
  unfold pConv
  exact min_le_min (le_refl 45) (by omega)

theorem pRec_mono (n : ℕ) {i j : ℕ} (h : i ≤ j) : pRec n i ≤ pRec n j := by
  have h1 : 53 * i / n ≤ 53 * j / n := Nat.div_le_div_right (by omega)
  unfold pRec
  exact min_le_min (le_refl 98) (by omega)

theorem pRetry_mono (n : ℕ) {i j : ℕ} (h : i ≤ j) : pRetry n i ≤ pRetry n j := by
  have h1 : 88 * i / n ≤ 88 * j / n := Nat.div_le_div_right (by omega)
  unfold pRetry
  exact min_le_min (le_refl 98) (by omega)

theorem pConv_le (n i : ℕ) : pConv n i ≤ 45 := min_le_left _ _

theorem pRec_le (n i : ℕ) : pRec n i ≤ 98 := min_le_left _ _

theorem pRetry_le (n i : ℕ) : pRetry n i ≤ 98 := min_le_left _ _

theorem le_pConv (n i : ℕ) : 5 ≤ pConv n i :=
  le_min (by omega) (Nat.le_add_right 5 _)

theorem le_pRec (n i : ℕ) : 45 ≤ pRec n i :=
  le_min (by omega) (Nat.le_add_right 45 _)

theorem le_pRetry (n i : ℕ) : 10 ≤ pRetry n i :=
  le_min (by omega) (Nat.le_add_right 10 _)

theorem getLast?_append_two (tr : List ℕ) (p q : ℕ) :
    (tr ++ [p, q]).getLast? = some q := by
  rw [show tr ++ [p, q] = (tr ++ [p]) ++ [q] from by simp]
  exact List.getLast?_concat _

theorem chain'_lt_range' : ∀ (m s : ℕ), List.Chain' (· < ·) (List.range' s m) := by
  intro m
  induction m with
  | zero => intro s; exact List.chain'_nil
  | succ m ih =>
    intro s
    rw [List.range'_succ]
    cases m with
    | zero => exact List.chain'_singleton s
    | succ m' =>
      rw [List.range'_succ, List.chain'_cons]
      refine ⟨by omega, ?_⟩
      rw [← List.range'_succ]
      exact ih (s + 1)

theorem chain'_fst_enumFrom {α : Type} :
    ∀ (l : List α) (s : ℕ),
      List.Chain' (fun a b : ℕ × α => a.1 < b.1) (l.enumFrom s) := by
  intro l
  induction l with
  | nil => intro s; exact List.chain'_nil
  | cons x xs ih =>
    intro s
    rw [List.enumFrom]
    cases xs with
    | nil => exact List.chain'_singleton _
    | cons y ys =>
      have he : List.enumFrom (s + 1) (y :: ys) = (s + 1, y) :: List.enumFrom (s + 2) ys :=
        rfl
      rw [he, List.chain'_cons]
      refine ⟨by simp, ?_⟩
      rw [← he]
      exact ih (s + 1)

/-- The conversion loop appends a non-decreasing run of progress values. -/
theorem convLoop_trace_chain (env : OcrEnv) (n : ℕ) :
    ∀ (pages : List ℕ) (t : TaskState) (paths : List String) (tr : List ℕ),
      List.Chain' (· ≤ ·) tr →
      List.Chain' (· < ·) pages →
      (∀ a ∈ tr.getLast?, ∀ i ∈ pages.head?, a ≤ pConv n i) →
      List.Chain' (· ≤ ·) (convLoop env n pages t paths tr).2.2.1 := by
  intro pages
  induction pages with
  | nil => intro t paths tr htr _ _; exact htr
  | cons idx rest ih =>
    intro t paths tr htr hpg hlink
    simp only [convLoop]
    split_ifs with h1 h2
    · exact htr
    · refine ih _ _ _ ?_ hpg.tail ?_
      · refine htr.append (List.chain'_singleton _) ?_
        intro a ha b hb
        rw [List.head?_cons, Option.mem_some_iff] at hb
        subst hb
        exact hlink a ha idx (by simp)
      · intro a ha j hj
        rw [List.getLast?_concat, Option.mem_some_iff] at ha
        subst ha
        cases rest with
        | nil => exact absurd hj (by simp)
        | cons j' rest' =>
          rw [List.head?_cons, Option.mem_some_iff] at hj
          have hij : idx < j' := hpg.rel_head
          rw [← hj]
          exact pConv_mono n (le_of_lt hij)
    · exact htr

/-- Values appended by the conversion loop stay below any bound above 45. -/
theorem convLoop_trace_bound (env : OcrEnv) (n : ℕ) :
    ∀ (pages : List ℕ) (t : TaskState) (paths : List String) (tr : List ℕ) (B : ℕ),
      45 ≤ B → (∀ x ∈ tr, x ≤ B) →
      ∀ x ∈ (convLoop env n pages t paths tr).2.2.1, x ≤ B := by
  intro pages
  induction pages with
  | nil => intro t paths tr B _ htr; exact htr
  | cons idx rest ih =>
    intro t paths tr B hB htr
    simp only [convLoop]
    split_ifs with h1 h2
    · exact htr
    · refine ih _ _ _ B hB ?_
      intro x hx
      rw [List.mem_append] at hx
      rcases hx with hx | hx
      · exact htr x hx
      · rw [List.mem_singleton] at hx
        subst hx
        exact le_trans (pConv_le n idx) hB
    · exact htr

/-- The recognition loop appends a non-decreasing run of progress values. -/
theorem recLoop_trace_chain (env : OcrEnv) (n : ℕ) :
    ∀ (pages : List ℕ) (t : TaskState) (rows : List Row) (failed : List ℤ) (tr : List ℕ),
      List.Chain' (· ≤ ·) tr →
      List.Chain' (· < ·) pages →
      (∀ a ∈ tr.getLast?, ∀ i ∈ pages.head?, a ≤ pRec n i) →
      List.Chain' (· ≤ ·) (recLoop env n pages t rows failed tr).2.2.2.1 := by
  intro pages
  induction pages with
  | nil => intro t rows failed tr htr _ _; exact htr
  | cons idx rest ih =>
    intro t rows failed tr htr hpg hlink
    simp only [recLoop]
    split_ifs with h1
    · exact htr
    · refine ih _ _ _ _ ?_ hpg.tail ?_
      · refine htr.append (List.chain'_pair.mpr (le_refl _)) ?_
        intro a ha b hb
        rw [List.head?_cons, Option.mem_some_iff] at hb
        rw [← hb]
        exact hlink a ha idx (by simp)
      · intro a ha j hj
        rw [getLast?_append_two, Option.mem_some_iff] at ha
        rw [← ha]
        cases rest with
        | nil => exact absurd hj (by simp)
        | cons j' rest' =>
          rw [List.head?_cons, Option.mem_some_iff] at hj
          rw [← hj]
          exact pRec_mono n (le_of_lt hpg.rel_head)

/-- Values appended by the recognition loop stay below any bound above 98. -/
theorem recLoop_trace_bound (env : OcrEnv) (n : ℕ) :
    ∀ (pages : List ℕ) (t : TaskState) (rows : List Row) (failed : List ℤ)
      (tr : List ℕ) (B : ℕ),
      98 ≤ B → (∀ x ∈ tr, x ≤ B) →
      ∀ x ∈ (recLoop env n pages t rows failed tr).2.2.2.1, x ≤ B := by
  intro pages
  induction pages with
  | nil => intro t rows failed tr B _ htr; exact htr
  | cons idx rest ih =>
    intro t rows failed tr B hB htr
    simp only [recLoop]
    split_ifs with h1
    · exact htr
    · refine ih _ _ _ _ B hB ?_
      intro x hx
      rw [List.mem_append] at hx
      rcases hx with hx | hx
      · exact htr x hx
      · rw [List.mem_cons, List.mem_singleton] at hx
        rcases hx with hx | hx <;>
          { rw [hx]; exact le_trans (pRec_le n idx) hB }

/-- The retry loop appends a non-decreasing run of progress values. -/
theorem retryLoop_trace_chain (env : RetryEnv) (images : List String) (total : ℕ) :
    ∀ (pairs : List (ℕ × ℤ)) (t : TaskState) (retried : List Row)
      (remaining : List ℤ) (tr : List ℕ),
      List.Chain' (· ≤ ·) tr →
      List.Chain' (fun a b : ℕ × ℤ => a.1 < b.1) pairs →
      (∀ a ∈ tr.getLast?, ∀ q ∈ pairs.head?, a ≤ pRetry total q.1) →
      List.Chain' (· ≤ ·)
        (retryLoop env images total pairs t retried remaining tr).2.2.2.1 := by
  intro pairs
  induction pairs with
  | nil => intro t retried remaining tr htr _ _; exact htr
  | cons q rest ih =>
    intro t retried remaining tr htr hpg hlink
    obtain ⟨idx, page⟩ := q
    have hnext : ∀ (a : ℕ),
        (a ∈ (tr ++ [pRetry total idx]).getLast? ∨
          a ∈ (tr ++ [pRetry total idx, pRetry total idx]).getLast?) →
        ∀ p ∈ rest.head?, a ≤ pRetry total p.1 := by
      intro a ha p hp
      have haval : a = pRetry total idx := by
        rcases ha with ha | ha
        · rw [List.getLast?_concat, Option.mem_some_iff] at ha
          exact ha.symm
        · rw [getLast?_append_two, Option.mem_some_iff] at ha
          exact ha.symm
      rw [haval]
      cases rest with
      | nil => exact absurd hp (by simp)
      | cons q' rest' =>
        rw [List.head?_cons, Option.mem_some_iff] at hp
        rw [← hp]
        exact pRetry_mono total (le_of_lt hpg.rel_head)
    have hhead : ∀ a ∈ tr.getLast?, a ≤ pRetry total idx := by
      intro a ha
      exact hlink a ha (idx, page) (by simp)
    simp only [retryLoop]
    split_ifs with h1 h2
    · exact htr
    · refine ih _ _ _ _ ?_ hpg.tail ?_
      · refine htr.append (List.chain'_singleton _) ?_
        intro a ha b hb
        rw [List.head?_cons, Option.mem_some_iff] at hb
        rw [← hb]
        exact hhead a ha
      · intro a ha p hp
        exact hnext a (Or.inl ha) p hp
    · refine ih _ _ _ _ ?_ hpg.tail ?_
      · refine htr.append (List.chain'_pair.mpr (le_refl _)) ?_
        intro a ha b hb
        rw [List.head?_cons, Option.mem_some_iff] at hb
        rw [← hb]
        exact hhead a ha
      · intro a ha p hp
        exact hnext a (Or.inr ha) p hp

/-- Values appended by the retry loop stay below any bound above 98. -/
theorem retryLoop_trace_bound (env : RetryEnv) (images : List String) (total : ℕ) :
    ∀ (pairs : List (ℕ × ℤ)) (t : TaskState) (retried : List Row)
      (remaining : List ℤ) (tr : List ℕ) (B : ℕ),
      98 ≤ B → (∀ x ∈ tr, x ≤ B) →
      ∀ x ∈ (retryLoop env images total pairs t retried remaining tr).2.2.2.1, x ≤ B := by
  intro pairs
  induction pairs with
  | nil => intro t retried remaining tr B _ htr; exact htr
  | cons q rest ih =>
    intro t retried remaining tr B hB htr
    obtain ⟨idx, page⟩ := q
    simp only [retryLoop]
    split_ifs with h1 h2
    · exact htr
    · refine ih _ _ _ _ B hB ?_
      intro x hx
      rw [List.mem_append] at hx
      rcases hx with hx | hx
      · exact htr x hx
      · rw [List.mem_singleton] at hx
        rw [hx]
        exact le_trans (pRetry_le total idx) hB
    · refine ih _ _ _ _ B hB ?_
      intro x hx
      rw [List.mem_append] at hx
      rcases hx with hx | hx
      · exact htr x hx
      · rw [List.mem_cons, List.mem_singleton] at hx
        rcases hx with hx | hx <;>
          { rw [hx]; exact le_trans (pRetry_le total idx) hB }

/-- C7: within a single run — an initial run or a retry run — the sequence
of values written to the `progress` field is non-decreasing, and every
written value lies between 0 and 100 (the values are naturals, so only the
upper bound is substantive). -/
theorem C7_progress_monotone_bounded (env : OcrEnv) (renv : RetryEnv) (w : World) :
    (List.Chain' (· ≤ ·) (run_ocr_task env).2 ∧
      ∀ p ∈ (run_ocr_task env).2, p ≤ 100) ∧
    (List.Chain' (· ≤ ·) (run_retry_task renv w).2 ∧
      ∀ p ∈ (run_retry_task renv w).2, p ≤ 100) := by
  have hlinkc : ∀ a ∈ ([3, 5] : List ℕ).getLast?,
      ∀ i ∈ (List.range' 1 env.pageCount).head?, a ≤ pConv env.pageCount i := by
    intro a ha i hi
    rw [show ([3, 5] : List ℕ).getLast? = some 5 from rfl, Option.mem_some_iff] at ha
    have := le_pConv env.pageCount i
    omega
  have h35le : ∀ B : ℕ, 45 ≤ B → ∀ x ∈ ([3, 5] : List ℕ), x ≤ B := by
    intro B hB x hx
    rw [List.mem_cons, List.mem_singleton] at hx
    omega
  have hcb : ∀ (B : ℕ), 45 ≤ B → ∀ (t : TaskState),
      ∀ x ∈ (convLoop env env.pageCount (List.range' 1 env.pageCount) t
        [] [3, 5]).2.2.1, x ≤ B :=
    fun B hB t => convLoop_trace_bound env _ _ t _ _ B hB (h35le B hB)
  have hcc : ∀ (t : TaskState),
      List.Chain' (· ≤ ·) (convLoop env env.pageCount (List.range' 1 env.pageCount) t
        [] [3, 5]).2.2.1 :=
    fun t => convLoop_trace_chain env _ _ t _ _ (List.chain'_pair.mpr (by omega))
      (chain'_lt_range' _ _) hlinkc
  have hlinkr : ∀ (t : TaskState),
      ∀ a ∈ (convLoop env env.pageCount (List.range' 1 env.pageCount) t
        [] [3, 5]).2.2.1.getLast?,
      ∀ i ∈ (List.range' 1 env.pageCount).head?, a ≤ pRec env.pageCount i := by
    intro t a ha i hi
    have hmem := List.mem_of_getLast?_eq_some (Option.mem_def.mp ha)
    have h45 := hcb 45 (le_refl _) t a hmem
    have := le_pRec env.pageCount i
    omega
  have hrc : ∀ (t t' : TaskState),
      List.Chain' (· ≤ ·) (recLoop env env.pageCount (List.range' 1 env.pageCount) t'
        [] [] (convLoop env env.pageCount (List.range' 1 env.pageCount) t
          [] [3, 5]).2.2.1).2.2.2.1 :=
    fun t t' => recLoop_trace_chain env _ _ t' _ _ _ (hcc t)
      (chain'_lt_range' _ _) (hlinkr t)
  have hrb : ∀ (t t' : TaskState),
      ∀ x ∈ (recLoop env env.pageCount (List.range' 1 env.pageCount) t'
        [] [] (convLoop env env.pageCount (List.range' 1 env.pageCount) t
          [] [3, 5]).2.2.1).2.2.2.1, x ≤ 100 :=
    fun t t' => recLoop_trace_bound env _ _ t' _ _ _ 100 (by omega)
      (hcb 100 (by omega) t)
  refine ⟨⟨?_, ?_⟩, ?_, ?_⟩
  · -- initial run: monotone
    dsimp only [run_ocr_task]
    by_cases h1 : ¬ env.authOk = true
    · rw [if_pos h1]
      exact List.chain'_singleton 3
    · rw [if_neg h1]
      by_cases h2 : env.pageCount = 0
      · rw [if_pos h2]
        exact List.chain'_singleton 3
      · rw [if_neg h2]
        split_ifs with he1 he2 hfl hrows hfe
        · exact hcc _
        · exact hcc _
        · exact hrc _ _
        · exact hrc _ _
        · refine (hrc _ _).append (List.chain'_singleton 100) ?_
          intro a ha b hb
          rw [List.head?_cons, Option.mem_some_iff] at hb
          have hmem := List.mem_of_getLast?_eq_some (Option.mem_def.mp ha)
          have := hrb _ _ a hmem
          omega
        · refine (hrc _ _).append (List.chain'_singleton 100) ?_
          intro a ha b hb
          rw [List.head?_cons, Option.mem_some_iff] at hb
          have hmem := List.mem_of_getLast?_eq_some (Option.mem_def.mp ha)
          have := hrb _ _ a hmem
          omega
  · -- initial run: bounded by 100
    dsimp only [run_ocr_task]
    by_cases h1 : ¬ env.authOk = true
    · rw [if_pos h1]
      intro p hp; rw [List.mem_singleton] at hp; omega
    · rw [if_neg h1]
      by_cases h2 : env.pageCount = 0
      · rw [if_pos h2]
        intro p hp; rw [List.mem_singleton] at hp; omega
      · rw [if_neg h2]
        split_ifs with he1 he2 hfl hrows hfe
        · exact hcb 100 (by omega) _
        · exact hcb 100 (by omega) _
        · exact hrb _ _
        · exact hrb _ _
        · intro p hp
          rw [List.mem_append] at hp
          rcases hp with hp | hp
          · exact hrb _ _ p hp
          · rw [List.mem_singleton] at hp; omega
        · intro p hp
          rw [List.mem_append] at hp
          rcases hp with hp | hp
          · exact hrb _ _ p hp
          · rw [List.mem_singleton] at hp; omega
  · -- retry run: monotone
    dsimp only [run_retry_task]
    have hlink5 : ∀ (total : ℕ) (pairs : List (ℕ × ℤ)),
        ∀ a ∈ ([5] : List ℕ).getLast?, ∀ q ∈ pairs.head?, a ≤ pRetry total q.1 := by
      intro total pairs a ha q hq
      rw [show ([5] : List ℕ).getLast? = some 5 from rfl, Option.mem_some_iff] at ha
      have := le_pRetry total q.1
      omega
    have hlc : ∀ (total : ℕ) (pairs : List (ℕ × ℤ)) (t : TaskState),
        List.Chain' (fun a b : ℕ × ℤ => a.1 < b.1) pairs →
        List.Chain' (· ≤ ·)
          (retryLoop renv w.task.image_paths total pairs t [] [] [5]).2.2.2.1 :=
      fun total pairs t hpp => retryLoop_trace_chain renv _ total pairs t _ _ _
        (List.chain'_singleton 5) hpp (hlink5 total pairs)
    have hlb : ∀ (total : ℕ) (pairs : List (ℕ × ℤ)) (t : TaskState),
        ∀ x ∈ (retryLoop renv w.task.image_paths total pairs t [] [] [5]).2.2.2.1,
          x ≤ 100 :=
      fun total pairs t => retryLoop_trace_bound renv _ total pairs t _ _ _ 100
        (by omega) (by intro x hx; rw [List.mem_singleton] at hx; omega)
    split_ifs with hg ha2 hfl hrem
    all_goals first
      | exact List.chain'_nil
      | exact List.chain'_singleton 5
      | exact hlc _ _ _ (chain'_fst_enumFrom _ _)
      | (refine (hlc _ _ _ (chain'_fst_enumFrom _ _)).append
           (List.chain'_singleton 100) ?_
         intro a ha b hb
         rw [List.head?_cons, Option.mem_some_iff] at hb
         have hmem := List.mem_of_getLast?_eq_some (Option.mem_def.mp ha)
         have := hlb _ _ _ a hmem
         omega)
  · -- retry run: bounded by 100
    dsimp only [run_retry_task]
    have hlb : ∀ (total : ℕ) (pairs : List (ℕ × ℤ)) (t : TaskState),
        ∀ x ∈ (retryLoop renv w.task.image_paths total pairs t [] [] [5]).2.2.2.1,
          x ≤ 100 :=
      fun total pairs t => retryLoop_trace_bound renv _ total pairs t _ _ _ 100
        (by omega) (by intro x hx; rw [List.mem_singleton] at hx; omega)
    split_ifs with hg ha2 hfl hrem
    all_goals first
      | (intro p hp; exact absurd hp (List.not_mem_nil p))
      | (intro p hp; rw [List.mem_singleton] at hp; omega)
      | exact hlb _ _ _
      | (intro p hp
         rw [List.mem_append] at hp
         rcases hp with hp | hp
         · exact hlb _ _ _ p hp
         · rw [List.mem_singleton] at hp; omega)

/-! ### Concrete witnesses for the orchestrator claims -/

/-- A one-page environment whose single page recognizes successfully. -/
def envOk : OcrEnv :=
  { authOk := true
    pageCount := 1
    renderOk := fun _ => true
    recognize := fun _ => some []
    layout := "horizontal"
    pdfStem := "doc"
    taskId := "t"
    cancelFrom := none }

/-- Witness for C5 at a concrete one-page run. -/
theorem C5_completion_counts_witness :
    ((run_ocr_task envOk).1.task.status = "completed" ∨
      (run_ocr_task envOk).1.task.status = "completed_with_errors") ∧
    (run_ocr_task envOk).1.task.pages_done = (run_ocr_task envOk).1.task.pages_total ∧
    (run_ocr_task envOk).1.task.failed_pages.length +
      (List.range' 1 envOk.pageCount).countP (fun i => (envOk.recognize i).isSome) =
      envOk.pageCount :=
  C5_completion_counts envOk rfl (by decide) (fun i => rfl) rfl

/-- A one-page environment canceled at the first recognition check. -/
def envCancelRec : OcrEnv :=
  { envOk with cancelFrom := some 2 }

/-- Witness for C6 at a concrete run canceled before recognizing page 1. -/
theorem C6_cancel_mid_recognition_witness :
    (run_ocr_task envCancelRec).1.task.status = "canceled" ∧
    readRows (run_ocr_task envCancelRec).1.file =
      ((List.range' 1 0).map (pageRows envCancelRec)).flatten :=
  C6_cancel_mid_recognition envCancelRec 0 rfl (fun i => rfl) (by decide) rfl
    (by decide)

/-- A one-page environment canceled at the first conversion check. -/
def envCancelConv : OcrEnv :=
  { envOk with cancelFrom := some 1 }

/-- Witness for C9 at a concrete run canceled during conversion. -/
theorem C9_canceled_initial_run_not_retryable_witness :
    (run_ocr_task envCancelConv).1.task.failed_pages = [] ∧
    api_can_retry (run_ocr_task envCancelConv).1.task = false :=
  C9_canceled_initial_run_not_retryable envCancelConv (by decide)

/-- A retry environment whose failed page recognizes successfully. -/
def renvOk : RetryEnv :=
  { authOk := true
    recognize := fun _ => some []
    layout := "horizontal"
    cancelFrom := none }

/-- A terminal job with one failed page, one image and an empty persisted
result set. -/
def wRetry : World :=
  { task := { initialTask with status := "completed_with_errors",
                               failed_pages := [1], image_paths := ["img"] }
    file := some [] }

/-- Witness for C1 at a concrete one-failed-page retry run. -/
theorem C1_retry_merge_witness :
    (run_retry_task renvOk wRetry).1.file = some (retryMerged renvOk wRetry []) ∧
    (retryMerged renvOk wRetry []).Pairwise rowLe ∧
    (∀ r ∈ retryMerged renvOk wRetry [],
      r.page_no ∈ wRetry.task.failed_pages → r ∈ retryNewRows renvOk wRetry) ∧
    ((retryMerged renvOk wRetry []).map rowKey).Nodup ∧
    (retryMerged renvOk wRetry []).filter
        (fun r => decide (r.page_no ∉ wRetry.task.failed_pages)) =
      ([] : List Row).filter (fun r => decide (r.page_no ∉ wRetry.task.failed_pages)) :=
  C1_retry_merge renvOk wRetry [] rfl (by decide) (by decide) (by decide) rfl rfl
    List.Pairwise.nil (by decide)
